import Mathlib

/-!
Verification development for the Banyai–Koch microscopic dielectric solver
(`dielectric_Banyai_Koch.py`).  NumPy float arrays are modelled as functions
from a finite nonempty index type into `ℝ` (arrays already broadcast onto a
common grid), float arithmetic as real arithmetic, and complex arrays as
functions into `ℂ`.  IEEE special values are modelled explicitly where the
source manipulates them: the `out[out == ±inf] = nan` masking in `f4` is
modelled by an `Option ℝ` value that is `none` exactly on the zero-denominator
entries (the entries whose float value is `±inf` or `nan`), and `np.nanprod`
skips those entries (`Option.getD 1`).  A raised Python exception is modelled
by `Except.error`.
-/

open Filter Topology

namespace BanyaiKoch

noncomputable section

/-! ### Module-level constants (source lines 7–11) -/

def kb : ℝ := 8.6173e-5

def kb_J : ℝ := 1.381e-23

def hbar_Js : ℝ := 1.055e-34

def m_e : ℝ := 9.1094e-31

def J_to_eV : ℝ := 6.242e18

/-! ### Unit-reduction helpers (source lines 14–134) -/

def E_to_wbar (E Eg ER : ℝ) : ℝ := (E - Eg) / ER

def T_to_Tbar (T ER : ℝ) : ℝ := T * kb / ER

def G_to_Gbar (G ER : ℝ) : ℝ := G / ER

def dielectric_prefactor (rcv a0 ER : ℝ) : ℝ := rcv ^ 2 / (2 * Real.pi * a0 ^ 3 * ER)

def mubar (mu Eg T : ℝ) : ℝ := (mu - Eg / 2) / (kb * T)

def g_from_ak (a0 k : ℝ) : ℝ := 12 / (Real.pi ^ 2 * a0 * k)

def Eg_from_g (Eg0 ER g : ℝ) (bound : Bool) : ℝ :=
  if bound then Eg0 + ER * (-1 + (1 - 1 / g) ^ 2) else Eg0 - ER / g

def ER_exciton (a0_exc m_star : ℝ) : ℝ :=
  hbar_Js ^ 2 / (2 * (m_star * m_e) * (a0_exc * 1e-9) ^ 2) * J_to_eV

def m_star_calc (me_star mh_star : ℝ) : ℝ := me_star * mh_star / (me_star + mh_star)

def n0_nm (T m_alpha_star : ℝ) : ℝ :=
  0.25 * (2 * (m_alpha_star * m_e) / (hbar_Js ^ 2 * Real.pi * (1 / (kb_J * T)))) ^ ((3 : ℝ) / 2)
    / 1e9 ^ (3 : ℕ)

def mu_from_n (n m_alpha_star T : ℝ) : ℝ :=
  let n0 := n0_nm T m_alpha_star
  let nu := n / n0
  kb * T * (Real.log nu + 4.897 * Real.log (0.045 * nu + 1) + 0.133 * nu)

def n_cubic_nm_from_ak (a0 k T mr_star : ℝ) : ℝ :=
  let k_invm := k * 1e9
  let a0_m := a0 / 1e9
  let mr_kg := mr_star * m_e
  k_invm ^ 2 * kb_J * T * mr_kg * a0_m / (4 * Real.pi * hbar_Js ^ 2) * 1e-27

/-! ### Complex Lorentzian (source lines 140–144) -/

def L (E E0 G : ℝ) (A : ℝ := 1) (A0 : ℝ := 0) : ℂ :=
  (A : ℂ) / (Real.pi : ℂ) / ((E0 : ℂ) - (E : ℂ) - Complex.I * (G : ℂ)) + (A0 : ℂ)

/-! ### Band-filling factor (source lines 159–162) -/

def band_filling_factor (wbar Tbar mubar_e mubar_h : ℝ) : ℝ :=
  Real.tanh ((wbar / Tbar - mubar_e - mubar_h) * 0.5)

/-! ### Bound-state ladder pieces (source lines 165–227)

`f1` is `np.sqrt(g).astype(int)` (truncation of `√g`, nonnegative in use).
`f4num`/`f4den` are the numerator and denominator of the Coulomb-enhancement
fraction in `f4`; `f4masked` is its value after the source replaces `±inf`
entries by `nan` (a zero denominator is exactly the set of entries whose IEEE
value is `±inf` — numerator nonzero — or `nan` — numerator zero; both are
`nan` after the masking lines 198–199, hence `none` here).  `nanProdF4` is
`np.nanprod(out, axis=-1)`: `nan` entries are skipped, i.e. count as `1`.
-/

def f1 (g : ℝ) : ℕ := Nat.floor (Real.sqrt g)

def f4num (g ℓv n : ℝ) : ℝ := n ^ 2 * (n ^ 2 * ℓv ^ 2 - (g - ℓv ^ 2) ^ 2)

def f4den (g ℓv n : ℝ) : ℝ := (n ^ 2 - ℓv ^ 2) * (n ^ 2 * ℓv ^ 2 - g ^ 2)

def f4masked (g ℓv n : ℝ) : Option ℝ :=
  if f4den g ℓv n = 0 then none else some (f4num g ℓv n / f4den g ℓv n)

def nanProdF4 (g : ℝ) (ℓ nmax : ℕ) : ℝ :=
  ∏ n ∈ Finset.Icc 1 nmax, (f4masked g (ℓ : ℝ) (n : ℝ)).getD 1

/-- `f2` of the source: one ladder resonance
`π * L(w + (1/ℓ - ℓ/g)², 0, G) * 2 * (g - ℓ²) * (2ℓ² - g) / (ℓ³ * g²)`.
The `ell` array holds integers but participates in float arithmetic, so the
index argument is a real number here. -/
def f2C (w g G ℓv : ℝ) : ℂ :=
  (Real.pi : ℂ) * L (w + (1 / ℓv - ℓv / g) ^ 2) 0 G * 2 * ((g - ℓv ^ 2 : ℝ) : ℂ)
    * ((2 * ℓv ^ 2 - g : ℝ) : ℂ) / ((ℓv ^ 3 * g ^ 2 : ℝ) : ℂ)

/-- `f3` of the source: ones, zeroed where `ell == 0`. -/
def f3v (ℓv : ℝ) : ℝ := if ℓv = 0 then 0 else 1

/-- One summand of the ladder sum at a surviving index `ℓ`:
`np.nanprod(f4(g, ell, n), axis=-1) * f2(w, g, G, ell) * f3(ell)`. -/
def ladderTerm (w g G : ℝ) (ℓ nmax : ℕ) : ℂ :=
  ((nanProdF4 g ℓ nmax : ℝ) : ℂ) * f2C w g G (ℓ : ℝ) * ((f3v (ℓ : ℝ) : ℝ) : ℂ)

/-! ### Arrays on an abstract broadcast grid -/

variable {ι : Type} [Fintype ι] [Nonempty ι]

def arrMin (a : ι → ℝ) : ℝ := Finset.univ.inf' Finset.univ_nonempty a

def arrMax (a : ι → ℝ) : ℝ := Finset.univ.sup' Finset.univ_nonempty a

/-- `bound_contribution` (source lines 165–227) on the broadcast grid:
`ellmax = int(np.max(np.sqrt(g)))` is a global truncation; at each grid point
the masked indices (`ell` zeroed where `f1(g) < ell`) contribute nothing to the
final `np.nansum` — the zeroed rows evaluate to `nan * 0 = nan` in the source
and are skipped, which nets to a `0` contribution here. -/
def boundContribution (w g G : ι → ℝ) (nmax : ℕ) : ι → ℂ :=
  let ellmax : ℕ := Nat.floor (arrMax fun i => Real.sqrt (g i))
  fun i => ∑ ℓ ∈ Finset.Icc 1 ellmax,
    if f1 (g i) < ℓ then 0 else ladderTerm (w i) (g i) (G i) ℓ nmax

/-- The pointwise ladder sum over the surviving indices `ℓ = 1 … ⌊√g⌋`. -/
def ladderSum (w g G : ℝ) (nmax : ℕ) : ℂ :=
  ∑ ℓ ∈ Finset.Icc 1 (f1 g), ladderTerm w g G ℓ nmax

theorem boundContribution_eq_ladderSum (w g G : ι → ℝ) (nmax : ℕ) (i : ι) :
    boundContribution w g G nmax i = ladderSum (w i) (g i) (G i) nmax := by
  have hle : f1 (g i) ≤ Nat.floor (arrMax fun j => Real.sqrt (g j)) := by
    apply Nat.floor_le_floor
    exact Finset.le_sup' (fun j => Real.sqrt (g j)) (Finset.mem_univ i)
  unfold boundContribution ladderSum
  rw [← Finset.sum_subset (Finset.Icc_subset_Icc_right hle)]
  · refine Finset.sum_congr rfl fun ℓ hℓ => ?_
    rw [if_neg]
    exact not_lt.mpr (Finset.mem_Icc.mp hℓ).2
  · intro ℓ hℓ hnot
    rw [if_pos]
    rcases Finset.mem_Icc.mp hℓ with ⟨h1, _⟩
    by_contra hcon
    exact hnot (Finset.mem_Icc.mpr ⟨h1, not_lt.mp hcon⟩)

/-! ### Continuum contribution (source lines 230–254) -/

def linspace (xmax : ℝ) (xnum : ℕ) (j : ℕ) : ℝ := xmax * j / ((xnum : ℝ) - 1)

def coulEnhnc (g x : ℝ) (nmax : ℕ) : ℝ :=
  ∏ n ∈ Finset.Icc 1 nmax,
    (1 + (2 * g * (n : ℝ) ^ 2 - g ^ 2) / (((n : ℝ) ^ 2 - g) ^ 2 + (n : ℝ) ^ 2 * g ^ 2 * x))

/-- `np.trapz(arr, dx=dx, axis=-2)` for `xnum` samples. -/
def trapzC (f : ℕ → ℂ) (dx : ℝ) (xnum : ℕ) : ℂ :=
  ∑ j ∈ Finset.range (xnum - 1), (f j + f (j + 1)) / 2 * (dx : ℂ)

def continuumContribution (w g G : ι → ℝ) (xmax : ℝ) (xnum nmax : ℕ) : ι → ℂ :=
  let x := linspace xmax xnum
  let dx := x 1 - x 0
  fun i =>
    trapzC (fun j => ((Real.sqrt (x j) * coulEnhnc (g i) (x j) nmax : ℝ) : ℂ)
      * L (w i - x j) 0 (G i)) dx xnum

/-! ### Reduced dielectric and the two orchestrators (source lines 257–361)

A raised exception is `Except.error`; the Mott-transition guard message is the
source's exception text.
-/

def mottMsg : String := "currently g less than 1 is not implemented---this is a Mott transition"

def reducedDielectric (wbar g Gbar Tbar mubar_e mubar_h : ι → ℝ) (xmax : ℝ)
    (xnum nmax : ℕ) : ι → ℂ :=
  let bf := fun i => band_filling_factor (wbar i) (Tbar i) (mubar_e i) (mubar_h i)
  let bound := boundContribution wbar g Gbar nmax
  let continuum := continuumContribution wbar g Gbar xmax xnum nmax
  fun i => ((bf i : ℝ) : ℂ) * (bound i + continuum i)

def dielectricMicroscopic (w : ι → ℝ) (Eg0 : ℝ) (G : ι → ℝ) (a0 : ℝ) (k T : ι → ℝ)
    (rcv : ℝ) (mu_e mu_h : ι → ℝ) (m_star xmax : ℝ) (xnum nmax : ℕ) :
    Except String (ι → ℂ) :=
  let g := fun i => g_from_ak a0 (k i)
  let ER := ER_exciton a0 m_star
  if arrMin g < 1 then
    Except.error mottMsg
  else
    let Eg := fun i => Eg_from_g Eg0 ER (g i) true
    let Gbar := fun i => G_to_Gbar (G i) ER
    let Tbar := fun i => T_to_Tbar (T i) ER
    let wbar := fun i => E_to_wbar (w i) (Eg i) ER
    let pre := dielectric_prefactor rcv a0 ER
    let mubar_e := fun i => mubar (mu_e i) (Eg i) (T i)
    let mubar_h := fun i => mubar (mu_h i) (Eg i) (T i)
    Except.ok fun i =>
      ((pre : ℝ) : ℂ) * reducedDielectric wbar g Gbar Tbar mubar_e mubar_h xmax xnum nmax i

def dielectricSimple (w k G T : ι → ℝ) (a0 Eg0 rcv me_star mh_star xmax : ℝ)
    (xnum nmax : ℕ) : Except String (ι → ℂ) :=
  let g := fun i => g_from_ak a0 (k i)
  let m_star := m_star_calc me_star mh_star
  let ER := ER_exciton a0 m_star
  if arrMin g < 1 then
    Except.error mottMsg
  else
    let Eg := fun i => Eg_from_g Eg0 ER (g i) true
    let Gbar := fun i => G_to_Gbar (G i) ER
    let Tbar := fun i => T_to_Tbar (T i) ER
    let wbar := fun i => E_to_wbar (w i) (Eg i) ER
    let pre := dielectric_prefactor rcv a0 ER
    let n_nm := fun i => n_cubic_nm_from_ak a0 (k i) (T i) m_star
    let mu_e := fun i => mu_from_n (n_nm i) me_star (T i)
    let mu_h := fun i => mu_from_n (n_nm i) mh_star (T i)
    let mubar_e := fun i => mubar (mu_e i) (Eg i) (T i)
    let mubar_h := fun i => mubar (mu_h i) (Eg i) (T i)
    let bf := fun i => band_filling_factor (wbar i) (Tbar i) (mubar_e i) (mubar_h i)
    let bound := boundContribution wbar g Gbar nmax
    let continuum := continuumContribution wbar g Gbar xmax xnum nmax
    -- the trailing `while bf.ndim != bound.ndim` reshape loop only restores
    -- broadcast axes and is the identity on element values
    Except.ok fun i => ((pre : ℝ) : ℂ) * ((bf i : ℝ) : ℂ) * (bound i + continuum i)

/-! ### The layout mechanics of `bound_contribution` (source lines 202–227)

`_checkndim_copy_reshape` (lines 147–156) asserts that all inputs share one
`ndim`, and the `ell = np.repeat(ell_base, g.size, axis=1)` step (lines
210–213) presupposes that `g` varies along axis 1 ("the first axis") while `w`
varies along axis 0 — the source says so in its own comments.  The model below
embeds that designated layout exactly: `w` of shape `(nw+1, 1)`, `g` of shape
`(1, ng+1)`, `G` of shape `(1, 1)`, `ndim_org = 2`.
-/

def boundContribution2D {nw ng : ℕ} (w : Fin (nw + 1) → ℝ) (g : Fin (ng + 1) → ℝ)
    (Gv : ℝ) (nmax : ℕ) : Fin (nw + 1) → Fin (ng + 1) → ℂ :=
  -- ellmax = int(np.max(np.sqrt(g)))
  let ellmax : ℕ := Nat.floor (arrMax fun j => Real.sqrt (g j))
  -- ell_base = np.arange(1, ellmax + 1) reshaped to (1, 1, ellmax, 1);
  -- ell = np.repeat(ell_base, g.size, axis=1) : shape (1, ng+1, ellmax, 1),
  -- entries ell[0, j, ℓidx, 0] = ℓidx + 1; then `ell[f1(g) < ell] = 0`:
  let ell : Fin (ng + 1) → ℕ → ℝ := fun j ℓidx =>
    if f1 (g j) < ℓidx + 1 then 0 else ((ℓidx + 1 : ℕ) : ℝ)
  -- out = np.nanprod(f4(g, ell, n), axis=-1, keepdims=True):
  let P : Fin (ng + 1) → ℕ → ℝ := fun j ℓidx =>
    ∏ n ∈ Finset.Icc 1 nmax, (f4masked (g j) (ell j ℓidx) (n : ℝ)).getD 1
  -- out = out * f2(w, g, G, ell) * f3(ell), then np.nansum(out, axis=-2):
  -- the ell = 0 rows evaluate to nan (0 * inf) in the source and are skipped
  -- by nansum, a net contribution of 0; here f3 = 0 makes the row literally 0.
  fun i j => ∑ ℓidx ∈ Finset.range ellmax,
    ((P j ℓidx : ℝ) : ℂ) * f2C (w i) (g j) Gv (ell j ℓidx) * ((f3v (ell j ℓidx) : ℝ) : ℂ)

/-- The `ndim` assertion of `_checkndim_copy_reshape` (source lines 150–152):
all inputs must have the same number of dimensions. -/
def ndimsAllEqual (nds : List ℕ) : Bool := nds.all fun d => d = nds.headD 0

/-- Modelled from the spec: standard NumPy broadcast compatibility of two
shapes — align from the trailing axis; each aligned pair of extents must be
equal or contain a 1. -/
def npBroadcastCompatible (s1 s2 : List ℕ) : Bool :=
  go s1.reverse s2.reverse
where
  go : List ℕ → List ℕ → Bool
    | [], _ => true
    | _, [] => true
    | a :: as, b :: bs => (a = b || a = 1 || b = 1) && go as bs

/-- Modelled from the spec: the density relation `n(k,T,a0,mr) =
k²·kB·T·mr/(4π ħ²)` as written in §4.1, with the same nm↔m conversions as the
source (`k` in nm⁻¹ scaled to m⁻¹, result scaled from m⁻³ to nm⁻³) and no
other factors; the spec's formula does not contain the Bohr radius `a0`. -/
def n_cubic_nm_spec (_a0 k T mr_star : ℝ) : ℝ :=
  let k_invm := k * 1e9
  let mr_kg := mr_star * m_e
  k_invm ^ 2 * kb_J * T * mr_kg / (4 * Real.pi * hbar_Js ^ 2) * 1e-27

/-! ### Helper lemmas -/

theorem sum_Icc_one_eq_sum_range {M : Type} [AddCommMonoid M] (f : ℕ → M) (n : ℕ) :
    ∑ ℓ ∈ Finset.Icc 1 n, f ℓ = ∑ j ∈ Finset.range n, f (j + 1) := by
  induction n with
  | zero => simp
  | succ n ih =>
    rw [Finset.sum_range_succ, ← ih, Finset.sum_Icc_succ_top (by omega)]

theorem tanh_eq_one_sub_aux (x : ℝ) : Real.tanh x = 1 - 2 / (Real.exp (2 * x) + 1) := by
  have h1 : Real.exp x ≠ 0 := (Real.exp_pos x).ne'
  have h2 : Real.exp (2 * x) + 1 ≠ 0 := by positivity
  have h2x : Real.exp (2 * x) = Real.exp x * Real.exp x := by
    rw [two_mul, Real.exp_add]
  have hcosh : Real.cosh x ≠ 0 := (Real.cosh_pos x).ne'
  rw [Real.tanh_eq_sinh_div_cosh, Real.sinh_eq, Real.cosh_eq, Real.exp_neg] at *
  field_simp at *
  nlinarith [Real.exp_pos x, sq_nonneg (Real.exp x)]

theorem bff_one_sub (x : ℝ) : band_filling_factor x 1 0 0 = 1 - 2 / (Real.exp x + 1) := by
  rw [band_filling_factor, tanh_eq_one_sub_aux]
  have h2 : 2 * ((x / 1 - 0 - 0) * 0.5) = x := by ring
  rw [h2]

theorem pi_sq_lt_twelve : Real.pi ^ 2 < 12 := by
  nlinarith [Real.pi_lt_d2, Real.pi_pos]

theorem one_le_g_one_one : 1 ≤ g_from_ak 1 1 := by
  rw [g_from_ak, le_div_iff₀ (by positivity)]
  nlinarith [pi_sq_lt_twelve]

theorem g_one_twelve_lt_one : g_from_ak 1 12 < 1 := by
  rw [g_from_ak, div_lt_one (by positivity)]
  nlinarith [Real.pi_gt_three]

theorem f1_four : f1 4 = 2 := by
  have h4 : Real.sqrt 4 = 2 := by
    rw [show (4 : ℝ) = 2 ^ 2 by norm_num, Real.sqrt_sq (by norm_num)]
  rw [f1, h4]
  norm_num

/-! ### Claim theorems -/

/-- C8: `band_filling_factor(wbar, Tbar, mubar_e, mubar_h)` equals
`tanh(½·(wbar/Tbar − mubar_e − mubar_h))` elementwise; as the argument tends
to +∞ the factor tends to +1, as it tends to −∞ the factor tends to −1, and
it is 0 when the argument is exactly 0. -/
theorem band_filling_factor_spec :
    (∀ wbar Tbar mubar_e mubar_h : ℝ,
        band_filling_factor wbar Tbar mubar_e mubar_h
          = Real.tanh ((wbar / Tbar - mubar_e - mubar_h) * (1 / 2))) ∧
    Filter.Tendsto (fun x : ℝ => band_filling_factor x 1 0 0) Filter.atTop (nhds 1) ∧
    Filter.Tendsto (fun x : ℝ => band_filling_factor x 1 0 0) Filter.atBot (nhds (-1)) ∧
    (∀ wbar Tbar mubar_e mubar_h : ℝ, wbar / Tbar - mubar_e - mubar_h = 0 →
        band_filling_factor wbar Tbar mubar_e mubar_h = 0) := by
  refine ⟨?_, ?_, ?_, ?_⟩
  · intro wv Tv mev mhv
    rw [band_filling_factor]
    norm_num
  · have hdiv : Tendsto (fun x : ℝ => 2 / (Real.exp x + 1)) atTop (𝓝 0) :=
      tendsto_const_nhds.div_atTop
        (tendsto_atTop_add_const_right _ 1 Real.tendsto_exp_atTop)
    have hsub := (tendsto_const_nhds (x := (1 : ℝ))).sub hdiv
    rw [sub_zero] at hsub
    exact hsub.congr fun x => (bff_one_sub x).symm
  · have hexp : Tendsto (fun x : ℝ => Real.exp x + 1) atBot (𝓝 1) := by
      have := Real.tendsto_exp_atBot.add (tendsto_const_nhds (x := (1 : ℝ)))
      simpa using this
    have hdiv : Tendsto (fun x : ℝ => 2 / (Real.exp x + 1)) atBot (𝓝 2) := by
      have h := (tendsto_const_nhds (x := (2 : ℝ))).div hexp one_ne_zero
      simpa using h
    have hsub := (tendsto_const_nhds (x := (1 : ℝ))).sub hdiv
    have hval : (1 : ℝ) - 2 = -1 := by norm_num
    rw [hval] at hsub
    exact hsub.congr fun x => (bff_one_sub x).symm
  · intro wv Tv mev mhv h
    rw [band_filling_factor, h]
    norm_num

theorem band_filling_factor_spec_witness : band_filling_factor 0 1 0 0 = 0 :=
  band_filling_factor_spec.2.2.2 0 1 0 0 (by norm_num)

/-- C2: in `bound_contribution`, the Coulomb-enhancement factor at a
degenerate pair `n = ℓ` has a zero denominator; the source's `f4` turns the
resulting `±inf`/`nan` into `nan` (modelled as `none`) and `np.nanprod` skips
it, so the factor is treated as the multiplicative identity: the product
equals the product over the remaining indices, and no NaN/Inf from the
degeneracy reaches the returned array. -/
theorem coulomb_degeneracy_masked (g : ℝ) (ℓ nmax : ℕ)
    (_h : ℓ ∈ Finset.Icc 1 nmax) (_hsurv : ℓ ≤ f1 g) :
    f4masked g (ℓ : ℝ) (ℓ : ℝ) = none ∧
    nanProdF4 g ℓ nmax
      = ∏ n ∈ (Finset.Icc 1 nmax).erase ℓ, (f4masked g (ℓ : ℝ) (n : ℝ)).getD 1 := by
  have hden : f4den g (ℓ : ℝ) (ℓ : ℝ) = 0 := by rw [f4den]; ring
  have hmask : f4masked g (ℓ : ℝ) (ℓ : ℝ) = none := by rw [f4masked, if_pos hden]
  refine ⟨hmask, ?_⟩
  rw [nanProdF4]
  exact (Finset.prod_erase _ (by rw [hmask]; rfl)).symm

theorem coulomb_degeneracy_masked_witness :
    f4masked 4 ((2 : ℕ) : ℝ) ((2 : ℕ) : ℝ) = none ∧
    nanProdF4 4 2 3
      = ∏ n ∈ (Finset.Icc 1 3).erase 2, (f4masked 4 ((2 : ℕ) : ℝ) ((n : ℕ) : ℝ)).getD 1 :=
  coulomb_degeneracy_masked 4 2 3 (by decide) (by rw [f1_four])

/-- C10: the `±inf → nan` masking in `f4` is not specific to the `n = ℓ`
degeneracy: whenever `g = n·ℓ` exactly with `n ≠ ℓ`, the factor's denominator
term `n²ℓ² − g²` is zero, the entry is likewise replaced by the multiplicative
identity in the `np.nanprod`, and no infinity or error propagates. -/
theorem coulomb_accidental_masked (g : ℝ) (ℓ n nmax : ℕ)
    (_hn : n ∈ Finset.Icc 1 nmax) (_hne : n ≠ ℓ) (hg : g = (n : ℝ) * (ℓ : ℝ)) :
    f4masked g (ℓ : ℝ) (n : ℝ) = none ∧
    nanProdF4 g ℓ nmax
      = ∏ m ∈ (Finset.Icc 1 nmax).erase n, (f4masked g (ℓ : ℝ) (m : ℝ)).getD 1 := by
  have hden : f4den g (ℓ : ℝ) (n : ℝ) = 0 := by rw [f4den, hg]; ring
  have hmask : f4masked g (ℓ : ℝ) (n : ℝ) = none := by rw [f4masked, if_pos hden]
  refine ⟨hmask, ?_⟩
  rw [nanProdF4]
  exact (Finset.prod_erase _ (by rw [hmask]; rfl)).symm

theorem coulomb_accidental_masked_witness :
    f4masked 2 ((1 : ℕ) : ℝ) ((2 : ℕ) : ℝ) = none ∧
    nanProdF4 2 1 2
      = ∏ m ∈ (Finset.Icc 1 2).erase 2, (f4masked 2 ((1 : ℕ) : ℝ) ((m : ℕ) : ℝ)).getD 1 :=
  coulomb_accidental_masked 2 1 2 2 (by decide) (by decide) (by norm_num)

/-- C6: when `g ≡ 1` everywhere, `ellmax = int(max(√g)) = 1`, so the ladder
sum of `bound_contribution` consists of the `ℓ = 1` term only; that term's
closed form is `nanprod·f2·f3` at `ℓ = 1`, whose `f2` factor carries
`(g − ℓ²) = 0`, so the whole contribution is 0. -/
theorem ladder_collapse_at_g_eq_one {ι : Type} [Fintype ι] [Nonempty ι]
    (w g G : ι → ℝ) (nmax : ℕ) (hg : ∀ i, g i = 1) :
    ∀ i, boundContribution w g G nmax i = ladderTerm (w i) 1 (G i) 1 nmax ∧
      boundContribution w g G nmax i = 0 := by
  intro i
  have h1 : boundContribution w g G nmax i = ladderSum (w i) 1 (G i) nmax := by
    rw [boundContribution_eq_ladderSum, hg i]
  have hf1 : f1 (1 : ℝ) = 1 := by rw [f1, Real.sqrt_one]; exact Nat.floor_one
  have h2 : ladderSum (w i) 1 (G i) nmax = ladderTerm (w i) 1 (G i) 1 nmax := by
    rw [ladderSum, hf1, Finset.Icc_self, Finset.sum_singleton]
  have hf2 : f2C (w i) 1 (G i) 1 = 0 := by
    rw [f2C]
    norm_num
  have h3 : ladderTerm (w i) 1 (G i) 1 nmax = 0 := by
    rw [ladderTerm]
    push_cast
    rw [hf2]
    ring
  exact ⟨h1.trans h2, (h1.trans h2).trans h3⟩

theorem ladder_collapse_at_g_eq_one_witness :
    boundContribution (fun _ : Fin 1 => 0) (fun _ => 1) (fun _ => 2) 3 0
        = ladderTerm 0 1 2 1 3 ∧
      boundContribution (fun _ : Fin 1 => 0) (fun _ => 1) (fun _ => 2) 3 0 = 0 :=
  ladder_collapse_at_g_eq_one (fun _ : Fin 1 => 0) (fun _ => 1) (fun _ => 2) 3
    (fun _ => rfl) 0

theorem masked_sum_eq {K M : ℕ} (hK : K ≤ M) (t : ℕ → ℂ) :
    (∑ ℓidx ∈ Finset.range M, if K < ℓidx + 1 then (0 : ℂ) else t (ℓidx + 1))
      = ∑ ℓ ∈ Finset.Icc 1 K, t ℓ := by
  rw [sum_Icc_one_eq_sum_range]
  refine ((Finset.sum_subset (Finset.range_subset.mpr hK) ?_).symm).trans
    (Finset.sum_congr rfl ?_)
  · intro x _ hnx
    rw [Finset.mem_range] at hnx
    rw [if_pos (by omega)]
  · intro x hx
    rw [Finset.mem_range] at hx
    rw [if_neg (by omega)]

/-- C3 counterexample: the shapes `(3,)` for `wbar` and `(3, 1)` for `g` are
broadcast-compatible under the standard NumPy rules, yet
`_checkndim_copy_reshape` inside `bound_contribution` asserts that all inputs
share one `ndim` — the ndims here are 1 for w, 2 for g, 1 for G — and raises
an `AssertionError`, so `bound_contribution` does not accept every
broadcast-compatible pair of input shapes. -/
theorem bound_contribution_broadcast_refuted :
    npBroadcastCompatible [3] [3, 1] = true ∧ ndimsAllEqual [1, 2, 1] = false := by
  constructor
  · rfl
  · rfl

/-- C3 amended: `bound_contribution` requires all inputs to share one `ndim`
and assumes the designated layout of its own comments — `w` varying along
axis 0 and `g` along axis 1.  On that layout its reshape/repeat/mask/nanprod/
nansum pipeline produces exactly the pointwise ladder sum at `(w i, g j)` on
the broadcast `(w × g)` grid. -/
theorem bound_contribution_designated_layout {nw ng : ℕ} (w : Fin (nw + 1) → ℝ)
    (g : Fin (ng + 1) → ℝ) (Gv : ℝ) (nmax : ℕ) (i : Fin (nw + 1)) (j : Fin (ng + 1)) :
    boundContribution2D w g Gv nmax i j = ladderSum (w i) (g j) Gv nmax := by
  have hK : f1 (g j) ≤ Nat.floor (arrMax fun j' => Real.sqrt (g j')) :=
    Nat.floor_le_floor (Finset.le_sup' (fun j' => Real.sqrt (g j')) (Finset.mem_univ j))
  rw [ladderSum,
    ← masked_sum_eq hK (fun ℓ => ladderTerm (w i) (g j) Gv ℓ nmax)]
  simp only [boundContribution2D]
  refine Finset.sum_congr rfl fun ℓidx _ => ?_
  by_cases hc : f1 (g j) < ℓidx + 1
  · rw [if_pos hc]
    simp [hc, f3v]
  · rw [if_neg hc]
    simp only [hc, if_false]
    rw [ladderTerm, nanProdF4]

theorem density_spec_value_ne : n_cubic_nm_spec 2 1 300 1 ≠ 0 := by
  rw [n_cubic_nm_spec, kb_J, hbar_Js, m_e]
  positivity

/-- C4 counterexample: at `a0 = 2` nm, `k = 1` nm⁻¹, `T = 300` K, `mr = 1`,
the source's `n_cubic_nm_from_ak` differs from the spec's formula
`k²·kB·T·mr/(4π ħ²)` (same unit conversions, no `a0` factor): the code output
carries the extra factor `a0_m = a0/1e9 = 2·10⁻⁹ ≠ 1`. -/
theorem density_formula_counterexample :
    n_cubic_nm_from_ak 2 1 300 1 ≠ n_cubic_nm_spec 2 1 300 1 := by
  have hrel : n_cubic_nm_from_ak 2 1 300 1 = n_cubic_nm_spec 2 1 300 1 * (2 / 1e9) := by
    rw [n_cubic_nm_from_ak, n_cubic_nm_spec]
    ring
  intro h
  rw [hrel] at h
  have hc : (2 : ℝ) / 1e9 = 1 :=
    mul_left_cancel₀ density_spec_value_ne (by rw [mul_one]; exact h)
  norm_num at hc

/-- C4 amended: the density-derived path converts the screening wavevector
`k` into the free-carrier density `k²·kB·T·mr·a0/(4π ħ²)` — the Debye–Hückel
relation includes the Bohr-radius factor `a0` — with the stated nm↔m unit
conversions and no other factors (collapsed here to the single power of ten
`10⁻¹⁸` that the conversions amount to). -/
theorem density_formula_with_a0 (a0 k T mr_star : ℝ) :
    n_cubic_nm_from_ak a0 k T mr_star
      = k ^ 2 * kb_J * T * (mr_star * m_e) * a0 / (4 * Real.pi * hbar_Js ^ 2) * 1e-18 := by
  rw [n_cubic_nm_from_ak]
  ring

/-- C1: both orchestrators compute `g = 12/(π² a0 k)` over the whole grid and
decide the Mott guard once per call from the array minimum: if `g < 1`
anywhere (equivalently, the minimum is below 1) the call raises the
Mott-transition exception immediately and returns no partial result; if
`g ≥ 1` everywhere, no such exception is raised and an array is returned. -/
theorem mott_guard_fail_fast {ι : Type} [Fintype ι] [Nonempty ι]
    (w k G T mu_e mu_h : ι → ℝ) (Eg0 a0 rcv m_star me_star mh_star xmax : ℝ)
    (xnum nmax : ℕ) (_ha : 0 < a0) (_hk : ∀ i, 0 < k i) :
    ((∃ i, g_from_ak a0 (k i) < 1) →
        dielectricMicroscopic w Eg0 G a0 k T rcv mu_e mu_h m_star xmax xnum nmax
          = Except.error mottMsg) ∧
    ((∀ i, 1 ≤ g_from_ak a0 (k i)) →
        ∃ v, dielectricMicroscopic w Eg0 G a0 k T rcv mu_e mu_h m_star xmax xnum nmax
          = Except.ok v) ∧
    ((∃ i, g_from_ak a0 (k i) < 1) →
        dielectricSimple w k G T a0 Eg0 rcv me_star mh_star xmax xnum nmax
          = Except.error mottMsg) ∧
    ((∀ i, 1 ≤ g_from_ak a0 (k i)) →
        ∃ v, dielectricSimple w k G T a0 Eg0 rcv me_star mh_star xmax xnum nmax
          = Except.ok v) := by
  refine ⟨?_, ?_, ?_, ?_⟩
  · rintro ⟨i, hi⟩
    have hmin : arrMin (fun i => g_from_ak a0 (k i)) < 1 := by
      rw [arrMin]
      exact (Finset.inf'_lt_iff Finset.univ_nonempty).mpr ⟨i, Finset.mem_univ i, hi⟩
    simp only [dielectricMicroscopic]
    rw [if_pos hmin]
  · intro h
    have hmin : ¬ arrMin (fun i => g_from_ak a0 (k i)) < 1 := by
      rw [arrMin, not_lt]
      exact Finset.le_inf' _ _ fun b _ => h b
    simp only [dielectricMicroscopic]
    rw [if_neg hmin]
    exact ⟨_, rfl⟩
  · rintro ⟨i, hi⟩
    have hmin : arrMin (fun i => g_from_ak a0 (k i)) < 1 := by
      rw [arrMin]
      exact (Finset.inf'_lt_iff Finset.univ_nonempty).mpr ⟨i, Finset.mem_univ i, hi⟩
    simp only [dielectricSimple]
    rw [if_pos hmin]
  · intro h
    have hmin : ¬ arrMin (fun i => g_from_ak a0 (k i)) < 1 := by
      rw [arrMin, not_lt]
      exact Finset.le_inf' _ _ fun b _ => h b
    simp only [dielectricSimple]
    rw [if_neg hmin]
    exact ⟨_, rfl⟩

theorem mott_guard_fail_fast_witness :
    (dielectricMicroscopic (fun _ : Fin 1 => 0) 0 (fun _ => 0) 1 (fun _ => 12)
        (fun _ => 1) 1 (fun _ => 0) (fun _ => 0) 1 1 2 1 = Except.error mottMsg) ∧
    (∃ v, dielectricMicroscopic (fun _ : Fin 1 => 0) 0 (fun _ => 0) 1 (fun _ => 1)
        (fun _ => 1) 1 (fun _ => 0) (fun _ => 0) 1 1 2 1 = Except.ok v) ∧
    (dielectricSimple (fun _ : Fin 1 => 0) (fun _ => 12) (fun _ => 0) (fun _ => 1)
        1 0 1 1 1 1 2 1 = Except.error mottMsg) ∧
    (∃ v, dielectricSimple (fun _ : Fin 1 => 0) (fun _ => 1) (fun _ => 0) (fun _ => 1)
        1 0 1 1 1 1 2 1 = Except.ok v) :=
  ⟨(mott_guard_fail_fast (fun _ : Fin 1 => 0) (fun _ => 12) (fun _ => 0) (fun _ => 1)
      (fun _ => 0) (fun _ => 0) 0 1 1 1 1 1 1 2 1 (by norm_num)
      (fun _ => by norm_num)).1 ⟨0, g_one_twelve_lt_one⟩,
   (mott_guard_fail_fast (fun _ : Fin 1 => 0) (fun _ => 1) (fun _ => 0) (fun _ => 1)
      (fun _ => 0) (fun _ => 0) 0 1 1 1 1 1 1 2 1 (by norm_num)
      (fun _ => by norm_num)).2.1 (fun _ => one_le_g_one_one),
   (mott_guard_fail_fast (fun _ : Fin 1 => 0) (fun _ => 12) (fun _ => 0) (fun _ => 1)
      (fun _ => 0) (fun _ => 0) 0 1 1 1 1 1 1 2 1 (by norm_num)
      (fun _ => by norm_num)).2.2.1 ⟨0, g_one_twelve_lt_one⟩,
   (mott_guard_fail_fast (fun _ : Fin 1 => 0) (fun _ => 1) (fun _ => 0) (fun _ => 1)
      (fun _ => 0) (fun _ => 0) 0 1 1 1 1 1 1 2 1 (by norm_num)
      (fun _ => by norm_num)).2.2.2 (fun _ => one_le_g_one_one)⟩

/-- C5: with `g ≥ 1` everywhere, `dielectric_microscopic` returns
`pre · bf · (bound + continuum)` with `pre = rcv²/(2π·a0³·ER)`, the
band-filling factor, and the ladder/continuum contributions all evaluated at
the reduced parameters from the unit-reduction formulas, the bound-branch
renormalized gap being `Eg = Eg0 + ER·(−1 + (1 − 1/g)²)`. -/
theorem microscopic_returns_product {ι : Type} [Fintype ι] [Nonempty ι]
    (w k G T mu_e mu_h : ι → ℝ) (Eg0 a0 rcv m_star xmax : ℝ) (xnum nmax : ℕ)
    (h : ∀ i, 1 ≤ g_from_ak a0 (k i)) :
    dielectricMicroscopic w Eg0 G a0 k T rcv mu_e mu_h m_star xmax xnum nmax =
      Except.ok
        (let ER := ER_exciton a0 m_star
         let g := fun i => g_from_ak a0 (k i)
         let Eg := fun i => Eg0 + ER * (-1 + (1 - 1 / g i) ^ 2)
         let wbar := fun i => (w i - Eg i) / ER
         let Tbar := fun i => T i * kb / ER
         let Gbar := fun i => G i / ER
         let mubar_e := fun i => (mu_e i - Eg i / 2) / (kb * T i)
         let mubar_h := fun i => (mu_h i - Eg i / 2) / (kb * T i)
         let pre := rcv ^ 2 / (2 * Real.pi * a0 ^ 3 * ER)
         fun i => ((pre : ℝ) : ℂ)
           * (((band_filling_factor (wbar i) (Tbar i) (mubar_e i) (mubar_h i) : ℝ) : ℂ)
             * (boundContribution wbar g Gbar nmax i
               + continuumContribution wbar g Gbar xmax xnum nmax i))) := by
  have hmin : ¬ arrMin (fun i => g_from_ak a0 (k i)) < 1 := by
    rw [arrMin, not_lt]
    exact Finset.le_inf' _ _ fun b _ => h b
  simp only [dielectricMicroscopic, reducedDielectric, E_to_wbar, T_to_Tbar,
    G_to_Gbar, mubar, dielectric_prefactor, Eg_from_g, if_true, hmin, if_false]

theorem microscopic_returns_product_witness :
    dielectricMicroscopic (fun _ : Fin 1 => 0) 0 (fun _ => 0) 1 (fun _ => 1)
        (fun _ => 1) 1 (fun _ => 0) (fun _ => 0) 1 1 2 1 =
      Except.ok
        (let ER := ER_exciton 1 1
         let g := fun _ : Fin 1 => g_from_ak 1 1
         let Eg := fun i => 0 + ER * (-1 + (1 - 1 / g i) ^ 2)
         let wbar := fun i => (0 - Eg i) / ER
         let Tbar := fun _ : Fin 1 => 1 * kb / ER
         let Gbar := fun _ : Fin 1 => 0 / ER
         let mubar_e := fun i => (0 - Eg i / 2) / (kb * 1)
         let mubar_h := fun i => (0 - Eg i / 2) / (kb * 1)
         let pre := 1 ^ 2 / (2 * Real.pi * 1 ^ 3 * ER)
         fun i => ((pre : ℝ) : ℂ)
           * (((band_filling_factor (wbar i) (Tbar i) (mubar_e i) (mubar_h i) : ℝ) : ℂ)
             * (boundContribution wbar g Gbar 1 i
               + continuumContribution wbar g Gbar 1 2 1 i))) :=
  microscopic_returns_product (fun _ : Fin 1 => 0) (fun _ => 1) (fun _ => 0)
    (fun _ => 1) (fun _ => 0) (fun _ => 0) 0 1 1 1 1 2 1
    (fun _ => one_le_g_one_one)

/-- C7: replacing `rcv` by `c·rcv` multiplies the returned spectrum of
`dielectric_microscopic` by exactly `c²` (the prefactor is the only place
`rcv` enters; the bound, continuum and band-filling factors take no `rcv`
argument and are unchanged), and the Mott-guard error branch is unaffected. -/
theorem rcv_square_scaling {ι : Type} [Fintype ι] [Nonempty ι]
    (w k G T mu_e mu_h : ι → ℝ) (Eg0 a0 rcv m_star xmax : ℝ) (xnum nmax : ℕ)
    (c : ℝ) :
    dielectricMicroscopic w Eg0 G a0 k T (c * rcv) mu_e mu_h m_star xmax xnum nmax =
      Except.map (fun v i => ((c ^ 2 : ℝ) : ℂ) * v i)
        (dielectricMicroscopic w Eg0 G a0 k T rcv mu_e mu_h m_star xmax xnum nmax) := by
  simp only [dielectricMicroscopic]
  by_cases hmin : arrMin (fun i => g_from_ak a0 (k i)) < 1
  · rw [if_pos hmin, if_pos hmin]
    rfl
  · rw [if_neg hmin, if_neg hmin]
    simp only [Except.map]
    congr 1
    funext i
    rw [dielectric_prefactor, dielectric_prefactor]
    push_cast
    ring

theorem rcv_square_scaling_witness :
    dielectricMicroscopic (fun _ : Fin 1 => 0) 0 (fun _ => 0) 1 (fun _ => 1)
        (fun _ => 1) (2 * 1) (fun _ => 0) (fun _ => 0) 1 1 2 1 =
      Except.map (fun v i => ((2 ^ 2 : ℝ) : ℂ) * v i)
        (dielectricMicroscopic (fun _ : Fin 1 => 0) 0 (fun _ => 0) 1 (fun _ => 1)
          (fun _ => 1) 1 (fun _ => 0) (fun _ => 0) 1 1 2 1) :=
  rcv_square_scaling (fun _ : Fin 1 => 0) (fun _ => 1) (fun _ => 0) (fun _ => 1)
    (fun _ => 0) (fun _ => 0) 0 1 1 1 1 2 1 2

/-! ### Heap model for the mutation claim

NumPy arrays as buffers in a growable store: an arithmetic expression,
`copy`, `arange`, `repeat`, `ones` allocate a fresh buffer; `reshape` is a
view of the same buffer (this model stores flat data, so a contiguous reshape
is the identity on the buffer); an in-place assignment (`arr *= s`,
`arr[mask] = v`) overwrites one buffer.  Buffers are `(length, values)` over
flat indices.  Each core function is replayed statement by statement;
complex-valued intermediates (which are never written in place in the source)
are returned functionally.
-/

abbrev FArr : Type := ℕ × (ℕ → ℝ)

abbrev Heap : Type := List FArr

def hread (h : Heap) (r : ℕ) : FArr := (h[r]?).getD (0, fun _ => 0)

def hval (h : Heap) (r p : ℕ) : ℝ := (hread h r).2 p

def hlen (h : Heap) (r : ℕ) : ℕ := (hread h r).1

def halloc (h : Heap) (a : FArr) : Heap × ℕ := (h ++ [a], h.length)

def hwrite (h : Heap) (r : ℕ) (a : FArr) : Heap := h.set r a

theorem hread_halloc_lt {h : Heap} {a : FArr} {r : ℕ} (hr : r < h.length) :
    hread (halloc h a).1 r = hread h r := by
  simp [hread, halloc, List.getElem?_append_left hr]

theorem hread_hwrite_ne {h : Heap} {r r' : ℕ} {a : FArr} (hne : r' ≠ r) :
    hread (hwrite h r' a) r = hread h r := by
  simp [hread, hwrite, List.getElem?_set_ne hne]

/-- A heap evolution that only allocates fresh buffers or writes buffers
allocated after the start: every pre-existing buffer is left intact. -/
structure StepOK (h h' : Heap) : Prop where
  len_le : h.length ≤ h'.length
  pres : ∀ r, r < h.length → hread h' r = hread h r

theorem StepOK.refl (h : Heap) : StepOK h h := ⟨le_rfl, fun _ _ => rfl⟩

theorem StepOK.trans {h h' h'' : Heap} (s : StepOK h h') (t : StepOK h' h'') :
    StepOK h h'' :=
  ⟨s.len_le.trans t.len_le,
   fun r hr => (t.pres r (lt_of_lt_of_le hr s.len_le)).trans (s.pres r hr)⟩

theorem StepOK.alloc {h0 h : Heap} (s : StepOK h0 h) (a : FArr) :
    StepOK h0 (halloc h a).1 := by
  refine ⟨?_, fun r hr => ?_⟩
  · have h1 : (halloc h a).1.length = h.length + 1 := by simp [halloc]
    have h2 := s.len_le
    omega
  · rw [hread_halloc_lt (lt_of_lt_of_le hr s.len_le)]
    exact s.pres r hr

theorem StepOK.write {h0 h : Heap} (s : StepOK h0 h) {r : ℕ} (hr : h0.length ≤ r)
    (a : FArr) : StepOK h0 (hwrite h r a) := by
  refine ⟨?_, fun r' hr' => ?_⟩
  · have h1 : (hwrite h r a).length = h.length := by simp [hwrite]
    have h2 := s.len_le
    omega
  · rw [hread_hwrite_ne (by omega)]
    exact s.pres r' hr'

theorem stepOK_allocWrite {h0 h : Heap} (s : StepOK h0 h) (a b : FArr) :
    StepOK h0 (hwrite (halloc h a).1 (halloc h a).2 b) :=
  (s.alloc a).write (by simpa [halloc] using s.len_le) b

/-- `band_filling_factor` replayed on the heap (source lines 159–162). -/
def bffH (h : Heap) (wr Tr mer mhr : ℕ) : Heap × FArr :=
  -- argument = wbar / Tbar - mubar_e - mubar_h   (fresh buffer)
  let s1 := halloc h (hlen h wr,
    fun p => hval h wr p / hval h Tr p - hval h mer p - hval h mhr p)
  let h1 := s1.1
  let a := s1.2
  -- argument *= .5   (in place on the fresh buffer)
  let h2 := hwrite h1 a (hlen h1 a, fun p => hval h1 a p * 0.5)
  -- np.tanh(argument)   (fresh value, returned)
  (h2, (hlen h2 a, fun p => Real.tanh (hval h2 a p)))

/-- `arr.copy()` allocates; the subsequent `np.reshape` of the copy is a view
of the same (fresh) buffer. -/
def copyH (h : Heap) (r : ℕ) : Heap × ℕ := halloc h (hread h r)

/-- `_checkndim_copy_reshape` on three inputs (source lines 147–156). -/
def checkndim3H (h : Heap) (r1 r2 r3 : ℕ) : Heap × ℕ × ℕ × ℕ :=
  let s1 := copyH h r1
  let s2 := copyH s1.1 r2
  let s3 := copyH s2.1 r3
  (s3.1, s1.2, s2.2, s3.2)

/-- `bound_contribution` replayed on the heap (source lines 165–227); the
flat buffer of `f4`'s output at index `p` holds the entry `(j, ℓidx, n')`
with `p = (j*ellmax + ℓidx)*nmax + n'`, so `p / nmax` indexes `ell` and
`p / (ellmax*nmax)` indexes `g`; the output (complex) is indexed by
`q = i*ng + j`. -/
def boundH (h : Heap) (wr gr Gr : ℕ) (nmax : ℕ) : Heap × (ℕ → ℂ) :=
  let s0 := checkndim3H h wr gr Gr
  let h0 := s0.1
  let wc := s0.2.1
  let gc := s0.2.2.1
  let Gc := s0.2.2.2
  let ng := hlen h0 gc
  -- ellmax = int(np.max(np.sqrt(g)))
  let ellmax := Nat.floor
    (((List.range ng).map fun j => Real.sqrt (hval h0 gc j)).foldr max 0)
  -- ell_base = np.arange(1, ellmax+1, 1); ell = np.repeat(ell_base, g.size,
  -- axis=1): fresh buffer, flat entries ell[j*ellmax + ℓidx] = ℓidx + 1
  let s1 := halloc h0 (ng * ellmax, fun p => ((p % ellmax + 1 : ℕ) : ℝ))
  let h1 := s1.1
  let ell := s1.2
  -- ell[f1(g) < ell] = 0   (in place)
  let h2 := hwrite h1 ell (ng * ellmax, fun p =>
    if ((f1 (hval h1 gc (p / ellmax)) : ℕ) : ℝ) < hval h1 ell p then 0
    else hval h1 ell p)
  -- out = f4(g, ell, n): fresh buffer, raw float division
  let s2 := halloc h2 (ng * ellmax * nmax, fun p =>
    f4num (hval h2 gc (p / (ellmax * nmax))) (hval h2 ell (p / nmax))
        ((p % nmax + 1 : ℕ) : ℝ)
      / f4den (hval h2 gc (p / (ellmax * nmax))) (hval h2 ell (p / nmax))
        ((p % nmax + 1 : ℕ) : ℝ))
  let h3 := s2.1
  let f4r := s2.2
  -- out[out == -inf] = nan; out[out == inf] = nan: the two masking writes of
  -- f4 on its zero-denominator entries (the float ±inf/NaN entries),
  -- collapsed to one write; the stored surrogate 1 is the value np.nanprod
  -- later assigns a skipped entry
  let h4 := hwrite h3 f4r (ng * ellmax * nmax, fun p =>
    if f4den (hval h3 gc (p / (ellmax * nmax))) (hval h3 ell (p / nmax))
        ((p % nmax + 1 : ℕ) : ℝ) = 0 then 1
    else hval h3 f4r p)
  -- out = np.nanprod(out, axis=-1, keepdims=True)   (fresh buffer)
  let s3 := halloc h4 (ng * ellmax,
    fun p => ∏ n' ∈ Finset.range nmax, hval h4 f4r (p * nmax + n'))
  let h5 := s3.1
  let pr := s3.2
  -- f3(ell): out = np.ones(ell.shape); out[ell == 0] = 0
  let s4 := halloc h5 (ng * ellmax, fun _ => 1)
  let h6 := s4.1
  let f3r := s4.2
  let h7 := hwrite h6 f3r (ng * ellmax,
    fun p => if hval h6 ell p = 0 then 0 else hval h6 f3r p)
  -- out = out * f2(w, g, G, ell) * f3(ell); np.nansum(out, axis=-2)
  (h7, fun q => ∑ ℓidx ∈ Finset.range ellmax,
    ((hval h7 pr ((q % ng) * ellmax + ℓidx) : ℝ) : ℂ)
      * f2C (hval h7 wc (q / ng)) (hval h7 gc (q % ng)) (hval h7 Gc 0)
          (hval h7 ell ((q % ng) * ellmax + ℓidx))
      * ((hval h7 f3r ((q % ng) * ellmax + ℓidx) : ℝ) : ℂ))

/-- `continuum_contribution` replayed on the heap (source lines 230–254):
copies, one fresh `linspace` buffer, and pure complex arithmetic — no
in-place writes at all. -/
def continuumH (h : Heap) (wr gr Gr : ℕ) (xmax : ℝ) (xnum nmax : ℕ) :
    Heap × (ℕ → ℂ) :=
  let s0 := checkndim3H h wr gr Gr
  let h0 := s0.1
  let wc := s0.2.1
  let gc := s0.2.2.1
  let Gc := s0.2.2.2
  let ng := hlen h0 gc
  -- x = np.linspace(0, xmax, xnum)   (fresh buffer); dx = x[1] - x[0]
  let s1 := halloc h0 (xnum, fun j => linspace xmax xnum j)
  let h1 := s1.1
  let xr := s1.2
  let dx := hval h1 xr 1 - hval h1 xr 0
  (h1, fun q => trapzC (fun jdx =>
      ((Real.sqrt (hval h1 xr jdx)
          * coulEnhnc (hval h1 gc (q % ng)) (hval h1 xr jdx) nmax : ℝ) : ℂ)
        * L (hval h1 wc (q / ng) - hval h1 xr jdx) 0 (hval h1 Gc 0)) dx xnum)

/-- `reduced_dielectric` replayed on the heap (source lines 257–266). -/
def reducedH (h : Heap) (wbr gr Gbr Tbr mer mhr : ℕ) (xmax : ℝ) (xnum nmax : ℕ) :
    Heap × (ℕ → ℂ) :=
  let sbf := bffH h wbr Tbr mer mhr
  let sbd := boundH sbf.1 wbr gr Gbr nmax
  let sct := continuumH sbd.1 wbr gr Gbr xmax xnum nmax
  (sct.1, fun q => ((sbf.2.2 q : ℝ) : ℂ) * (sbd.2 q + sct.2 q))

/-- `dielectric_microscopic` replayed on the heap (source lines 269–311);
`np.min` over the `g` buffer is a fold over its flat entries. -/
def dielectricMicroscopicH (h : Heap) (wr : ℕ) (Eg0 : ℝ) (Gr : ℕ) (a0 : ℝ)
    (kr Tr : ℕ) (rcv : ℝ) (muer muhr : ℕ) (m_star xmax : ℝ) (xnum nmax : ℕ) :
    Heap × Except String (ℕ → ℂ) :=
  let s1 := halloc h (hlen h kr, fun p => g_from_ak a0 (hval h kr p))
  let h1 := s1.1
  let gr := s1.2
  let ER := ER_exciton a0 m_star
  if (((List.range (hlen h1 gr)).map fun p => hval h1 gr p).foldr min
      (hval h1 gr 0)) < 1 then
    (h1, Except.error mottMsg)
  else
    let s2 := halloc h1 (hlen h1 gr, fun p => Eg_from_g Eg0 ER (hval h1 gr p) true)
    let h2 := s2.1
    let Egr := s2.2
    let s3 := halloc h2 (hlen h2 Gr, fun p => G_to_Gbar (hval h2 Gr p) ER)
    let h3 := s3.1
    let Gbr := s3.2
    let s4 := halloc h3 (hlen h3 Tr, fun p => T_to_Tbar (hval h3 Tr p) ER)
    let h4 := s4.1
    let Tbr := s4.2
    let s5 := halloc h4 (hlen h4 wr,
      fun p => E_to_wbar (hval h4 wr p) (hval h4 Egr p) ER)
    let h5 := s5.1
    let wbr := s5.2
    let pre := dielectric_prefactor rcv a0 ER
    let s6 := halloc h5 (hlen h5 muer,
      fun p => mubar (hval h5 muer p) (hval h5 Egr p) (hval h5 Tr p))
    let h6 := s6.1
    let mebr := s6.2
    let s7 := halloc h6 (hlen h6 muhr,
      fun p => mubar (hval h6 muhr p) (hval h6 Egr p) (hval h6 Tr p))
    let h7 := s7.1
    let mhbr := s7.2
    let sr := reducedH h7 wbr gr Gbr Tbr mebr mhbr xmax xnum nmax
    (sr.1, Except.ok fun q => ((pre : ℝ) : ℂ) * sr.2 q)

/-- `dielectric_simple` replayed on the heap (source lines 328–361). -/
def dielectricSimpleH (h : Heap) (wr kr Gr Tr : ℕ)
    (a0 Eg0 rcv me_star mh_star xmax : ℝ) (xnum nmax : ℕ) :
    Heap × Except String (ℕ → ℂ) :=
  let s1 := halloc h (hlen h kr, fun p => g_from_ak a0 (hval h kr p))
  let h1 := s1.1
  let gr := s1.2
  let m_star := m_star_calc me_star mh_star
  let ER := ER_exciton a0 m_star
  if (((List.range (hlen h1 gr)).map fun p => hval h1 gr p).foldr min
      (hval h1 gr 0)) < 1 then
    (h1, Except.error mottMsg)
  else
    let s2 := halloc h1 (hlen h1 gr, fun p => Eg_from_g Eg0 ER (hval h1 gr p) true)
    let h2 := s2.1
    let Egr := s2.2
    let s3 := halloc h2 (hlen h2 Gr, fun p => G_to_Gbar (hval h2 Gr p) ER)
    let h3 := s3.1
    let Gbr := s3.2
    let s4 := halloc h3 (hlen h3 Tr, fun p => T_to_Tbar (hval h3 Tr p) ER)
    let h4 := s4.1
    let Tbr := s4.2
    let s5 := halloc h4 (hlen h4 wr,
      fun p => E_to_wbar (hval h4 wr p) (hval h4 Egr p) ER)
    let h5 := s5.1
    let wbr := s5.2
    let pre := dielectric_prefactor rcv a0 ER
    let s6 := halloc h5 (hlen h5 kr,
      fun p => n_cubic_nm_from_ak a0 (hval h5 kr p) (hval h5 Tr p) m_star)
    let h6 := s6.1
    let nnmr := s6.2
    let s7 := halloc h6 (hlen h6 nnmr,
      fun p => mu_from_n (hval h6 nnmr p) me_star (hval h6 Tr p))
    let h7 := s7.1
    let muer := s7.2
    let s8 := halloc h7 (hlen h7 nnmr,
      fun p => mu_from_n (hval h7 nnmr p) mh_star (hval h7 Tr p))
    let h8 := s8.1
    let muhr := s8.2
    let s9 := halloc h8 (hlen h8 muer,
      fun p => mubar (hval h8 muer p) (hval h8 Egr p) (hval h8 Tr p))
    let h9 := s9.1
    let mebr := s9.2
    let s10 := halloc h9 (hlen h9 muhr,
      fun p => mubar (hval h9 muhr p) (hval h9 Egr p) (hval h9 Tr p))
    let h10 := s10.1
    let mhbr := s10.2
    let sbf := bffH h10 wbr Tbr mebr mhbr
    let sbd := boundH sbf.1 wbr gr Gbr nmax
    let sct := continuumH sbd.1 wbr gr Gbr xmax xnum nmax
    -- the trailing reshape loop is a view and touches no buffer contents
    (sct.1, Except.ok fun q =>
      ((pre : ℝ) : ℂ) * ((sbf.2.2 q : ℝ) : ℂ) * (sbd.2 q + sct.2 q))

theorem bffH_ok (h : Heap) (wr Tr mer mhr : ℕ) : StepOK h (bffH h wr Tr mer mhr).1 := by
  simp only [bffH]
  exact stepOK_allocWrite (StepOK.refl h) _ _

theorem checkndim3H_ok (h : Heap) (r1 r2 r3 : ℕ) :
    StepOK h (checkndim3H h r1 r2 r3).1 := by
  simp only [checkndim3H, copyH]
  exact (((StepOK.refl h).alloc _).alloc _).alloc _

theorem boundH_ok (h : Heap) (wr gr Gr : ℕ) (nmax : ℕ) :
    StepOK h (boundH h wr gr Gr nmax).1 := by
  simp only [boundH, checkndim3H, copyH]
  exact stepOK_allocWrite
    ((stepOK_allocWrite
      (stepOK_allocWrite ((((StepOK.refl h).alloc _).alloc _).alloc _) _ _) _ _).alloc _) _ _

theorem continuumH_ok (h : Heap) (wr gr Gr : ℕ) (xmax : ℝ) (xnum nmax : ℕ) :
    StepOK h (continuumH h wr gr Gr xmax xnum nmax).1 := by
  simp only [continuumH, checkndim3H, copyH]
  exact ((((StepOK.refl h).alloc _).alloc _).alloc _).alloc _

theorem reducedH_ok (h : Heap) (wbr gr Gbr Tbr mer mhr : ℕ) (xmax : ℝ)
    (xnum nmax : ℕ) : StepOK h (reducedH h wbr gr Gbr Tbr mer mhr xmax xnum nmax).1 := by
  simp only [reducedH]
  exact ((bffH_ok h wbr Tbr mer mhr).trans (boundH_ok _ wbr gr Gbr nmax)).trans
    (continuumH_ok _ wbr gr Gbr xmax xnum nmax)

theorem dielectricMicroscopicH_ok (h : Heap) (wr : ℕ) (Eg0 : ℝ) (Gr : ℕ) (a0 : ℝ)
    (kr Tr : ℕ) (rcv : ℝ) (muer muhr : ℕ) (m_star xmax : ℝ) (xnum nmax : ℕ) :
    StepOK h (dielectricMicroscopicH h wr Eg0 Gr a0 kr Tr rcv muer muhr m_star
      xmax xnum nmax).1 := by
  simp only [dielectricMicroscopicH]
  split
  · dsimp only
    exact (StepOK.refl h).alloc _
  · dsimp only
    refine StepOK.trans ?_ (reducedH_ok _ _ _ _ _ _ _ xmax xnum nmax)
    exact (((((((StepOK.refl h).alloc _).alloc _).alloc _).alloc _).alloc _).alloc
      _).alloc _

theorem dielectricSimpleH_ok (h : Heap) (wr kr Gr Tr : ℕ)
    (a0 Eg0 rcv me_star mh_star xmax : ℝ) (xnum nmax : ℕ) :
    StepOK h (dielectricSimpleH h wr kr Gr Tr a0 Eg0 rcv me_star mh_star xmax
      xnum nmax).1 := by
  simp only [dielectricSimpleH]
  split
  · dsimp only
    exact (StepOK.refl h).alloc _
  · dsimp only
    refine StepOK.trans (StepOK.trans (StepOK.trans ?_ (bffH_ok _ _ _ _ _))
      (boundH_ok _ _ _ _ _)) (continuumH_ok _ _ _ _ xmax xnum nmax)
    exact ((((((((((StepOK.refl h).alloc _).alloc _).alloc _).alloc _).alloc _).alloc
      _).alloc _).alloc _).alloc _).alloc _

/-- C9: no core operation mutates a caller-supplied input buffer.  All
in-place writes of the replayed source (`argument *= .5`,
`ell[f1(g) < ell] = 0`, the `±inf → nan` masking in `f4`, `out[ell == 0] = 0`
in `f3`) target buffers allocated inside the call (arithmetic results,
`repeat`, `ones`), and `_checkndim_copy_reshape` copies before reshaping, so
after each of the six core calls every pre-existing buffer — in particular
every input array — holds exactly the values it held before the call. -/
theorem core_calls_no_input_mutation (h : Heap) (r : ℕ) (hr : r < h.length)
    (wr Tr mer mhr gr Gr kr muer muhr : ℕ)
    (Eg0 a0 rcv m_star me_star mh_star xmax : ℝ) (xnum nmax : ℕ) :
    hread (bffH h wr Tr mer mhr).1 r = hread h r ∧
    hread (boundH h wr gr Gr nmax).1 r = hread h r ∧
    hread (continuumH h wr gr Gr xmax xnum nmax).1 r = hread h r ∧
    hread (reducedH h wr gr Gr Tr mer mhr xmax xnum nmax).1 r = hread h r ∧
    hread (dielectricMicroscopicH h wr Eg0 Gr a0 kr Tr rcv muer muhr m_star
      xmax xnum nmax).1 r = hread h r ∧
    hread (dielectricSimpleH h wr kr Gr Tr a0 Eg0 rcv me_star mh_star xmax
      xnum nmax).1 r = hread h r :=
  ⟨(bffH_ok h wr Tr mer mhr).pres r hr,
   (boundH_ok h wr gr Gr nmax).pres r hr,
   (continuumH_ok h wr gr Gr xmax xnum nmax).pres r hr,
   (reducedH_ok h wr gr Gr Tr mer mhr xmax xnum nmax).pres r hr,
   (dielectricMicroscopicH_ok h wr Eg0 Gr a0 kr Tr rcv muer muhr m_star
     xmax xnum nmax).pres r hr,
   (dielectricSimpleH_ok h wr kr Gr Tr a0 Eg0 rcv me_star mh_star xmax
     xnum nmax).pres r hr⟩

theorem core_calls_no_input_mutation_witness :
    hread (bffH [((1 : ℕ), fun _ => 5)] 0 0 0 0).1 0
        = hread [((1 : ℕ), fun _ => 5)] 0 ∧
    hread (boundH [((1 : ℕ), fun _ => 5)] 0 0 0 1).1 0
        = hread [((1 : ℕ), fun _ => 5)] 0 ∧
    hread (continuumH [((1 : ℕ), fun _ => 5)] 0 0 0 1 2 1).1 0
        = hread [((1 : ℕ), fun _ => 5)] 0 ∧
    hread (reducedH [((1 : ℕ), fun _ => 5)] 0 0 0 0 0 0 1 2 1).1 0
        = hread [((1 : ℕ), fun _ => 5)] 0 ∧
    hread (dielectricMicroscopicH [((1 : ℕ), fun _ => 5)] 0 1 0 1 0 0 1 0 0 1 1 2 1).1 0
        = hread [((1 : ℕ), fun _ => 5)] 0 ∧
    hread (dielectricSimpleH [((1 : ℕ), fun _ => 5)] 0 0 0 0 1 1 1 1 1 1 2 1).1 0
        = hread [((1 : ℕ), fun _ => 5)] 0 :=
  core_calls_no_input_mutation [((1 : ℕ), fun _ => 5)] 0 (by simp)
    0 0 0 0 0 0 0 0 0 1 1 1 1 1 1 1 2 1

end

end BanyaiKoch
